import Mathlib

/-!
# Verification of `classify_tickets.py` (ravenstack)

A shallow embedding of the two-stage hybrid support-ticket classifier:
the rule-based heuristic scorer (text normalization, keyword/regex rules,
negation handling, the Product-Usage override), the confidence/margin gate
that selects between the heuristic distribution and the statistical model's
distribution, and the batch bookkeeping that reports the fallback rate.

Python floats are modelled as exact rationals (`ℚ`), so "sums to 1 within
floating-point tolerance" becomes exact equality.  Text is modelled as lists
of characters (ASCII, which covers the keyword tables and test inputs).
The scikit-learn model (vectorizer + classifier) is external library state;
it is modelled as an opaque per-document probability-array function, with
its contracts (array length = number of encoder classes, entries
non-negative, summing to one) taken as hypotheses where needed.
The `exp`-based pseudo-probability conversion for the uncalibrated
fallback classifier is modelled over the reals.
-/

/-! ## Character classes (ASCII model of Python's `\w`, `\s`, `\d`) -/

def isWordChar (c : Char) : Bool :=
  c.isAlpha || c.isDigit || c == '_'

def isSpaceChar (c : Char) : Bool :=
  c == ' ' || c == '\t' || c == '\n' || c == '\r' || c == '\x0b' || c == '\x0c'

/-- The apostrophe character, used inside keywords such as `can` + `'` + `t`. -/
def apoc : Char := Char.ofNat 39

/-- The apostrophe as a one-character string. -/
def apos : String := String.mk [apoc]

/-! ## Text normalization (`TicketClassifier.normalize_text`) -/

/-- Python `str.strip()`: drop leading and trailing whitespace. -/
def stripChars (l : List Char) : List Char :=
  ((l.dropWhile isSpaceChar).reverse.dropWhile isSpaceChar).reverse

/-- Python `re.sub(r'\s+', ' ', text)`: collapse each whitespace run to a
single space (the flag records whether we are inside a whitespace run). -/
def collapseWSAux : Bool → List Char → List Char
  | _, [] => []
  | inRun, c :: rest =>
    if isSpaceChar c then
      if inRun then collapseWSAux true rest
      else ' ' :: collapseWSAux true rest
    else c :: collapseWSAux false rest

def collapseWS (l : List Char) : List Char := collapseWSAux false l

/-- `TicketClassifier.normalize_text`: falsy/missing input gives the empty
string, otherwise lowercase, strip, and collapse whitespace runs. -/
def normalize_text (t : String) : List Char :=
  if t = "" then [] else collapseWS (stripChars (t.data.map Char.toLower))

/-! ## A small regex engine

Only the constructs used by the source's patterns: character predicates,
concatenation, alternation (left-preferring), greedy star/plus/option,
bounded greedy repetition, and the zero-width word-boundary assertion `\b`.
`REstates` enumerates, in backtracking-preference order (alternation left
first, quantifiers greedy), the states `(last consumed char, remaining
suffix)` reachable by matching the pattern at the current position. -/

inductive RE where
  | eps : RE
  | cls : (Char → Bool) → RE
  | cat : RE → RE → RE
  | alt : RE → RE → RE
  | star : RE → RE
  | bnd : RE

def isWordOpt : Option Char → Bool
  | none => false
  | some c => isWordChar c

/-- `\b` holds between the previous character and the head of the suffix. -/
def wordBoundaryAt (prev : Option Char) (s : List Char) : Bool :=
  isWordOpt prev != isWordOpt s.head?

/-- The matcher recurses structurally on a fuel argument so that its
applications reduce inside the kernel.  `REfuel` below supplies
`(|s| + 1) * (REsize re + 1)` fuel, which is enough to explore every
backtracking path: atoms need 1 unit, `cat`/`alt` one unit plus the needs of
their parts on a no-longer suffix, and each `star` iteration consumes at
least one character, so depth `(REsize re + 1)` per remaining-suffix length
suffices; out-of-fuel (never reached from `REfuel`) yields no states. -/
def REstates : Nat → RE → Option Char → List Char → List (Option Char × List Char)
  | 0, _, _, _ => []
  | fuel + 1, re, prev, s =>
    match re with
    | RE.eps => [(prev, s)]
    | RE.bnd => if wordBoundaryAt prev s then [(prev, s)] else []
    | RE.cls p =>
      match s with
      | [] => []
      | c :: rest => if p c then [(some c, rest)] else []
    | RE.cat a b =>
      (REstates fuel a prev s).flatMap fun st => REstates fuel b st.1 st.2
    | RE.alt a b => REstates fuel a prev s ++ REstates fuel b prev s
    | RE.star a =>
      ((REstates fuel a prev s).flatMap fun st =>
        if st.2.length < s.length then REstates fuel (RE.star a) st.1 st.2 else []) ++
        [(prev, s)]

def REsize : RE → Nat
  | RE.eps => 1
  | RE.bnd => 1
  | RE.cls _ => 1
  | RE.cat a b => REsize a + REsize b + 1
  | RE.alt a b => REsize a + REsize b + 1
  | RE.star a => REsize a + 1

/-- Sufficient fuel for a full match exploration of `re` against `s`. -/
def REfuel (re : RE) (s : List Char) : Nat :=
  (s.length + 1) * (REsize re + 1)

/-- `re.search`: does the pattern match starting at some position? -/
def REsearchFrom (re : RE) : Option Char → List Char → Bool
  | prev, [] => !(REstates (REfuel re []) re prev []).isEmpty
  | prev, c :: rest =>
    !(REstates (REfuel re (c :: rest)) re prev (c :: rest)).isEmpty ||
      REsearchFrom re (some c) rest

def REsearch (re : RE) (s : List Char) : Bool :=
  REsearchFrom re none s

/-- One scanning step of `re.findall`: count non-overlapping matches,
scanning left to right, taking the engine's first match at the leftmost
matching position and resuming at its end (advancing one character past an
empty match, as Python does). -/
def countREFrom : Nat → RE → Option Char → List Char → Nat
  | 0, _, _, _ => 0
  | fuel + 1, re, prev, s =>
    match (REstates (REfuel re s) re prev s).head? with
    | some st =>
      if st.2.length < s.length then 1 + countREFrom fuel re st.1 st.2
      else
        1 + (match s with
             | [] => 0
             | c :: rest => countREFrom fuel re (some c) rest)
    | none =>
      match s with
      | [] => 0
      | c :: rest => countREFrom fuel re (some c) rest

/-- `len(re.findall(pattern, text))`. -/
def countRE (re : RE) (s : List Char) : Nat :=
  countREFrom (s.length + 1) re none s

/-! ### Pattern builders -/

/-- Exact single character. -/
def RE.lit1 (a : Char) : RE := RE.cls (fun c => c == a)

/-- Case-insensitive single character (patterns are written lowercase). -/
def RE.ci1 (a : Char) : RE := RE.cls (fun c => c.toLower == a)

def RE.litl : List Char → RE
  | [] => RE.eps
  | [a] => RE.lit1 a
  | a :: rest => RE.cat (RE.lit1 a) (RE.litl rest)

def RE.cil : List Char → RE
  | [] => RE.eps
  | [a] => RE.ci1 a
  | a :: rest => RE.cat (RE.ci1 a) (RE.cil rest)

/-- Exact literal string (a `re.escape`d keyword without `IGNORECASE`). -/
def RE.lits (s : String) : RE := RE.litl s.data

/-- Case-insensitive literal string. -/
def RE.cis (s : String) : RE := RE.cil s.data

def RE.opt (a : RE) : RE := RE.alt a RE.eps

def RE.plus (a : RE) : RE := RE.cat a (RE.star a)

/-- Greedy bounded repetition `a{0,n}`. -/
def RE.rep : RE → Nat → RE
  | _, 0 => RE.eps
  | a, n + 1 => RE.alt (RE.cat a (RE.rep a n)) RE.eps

/-- Left-preferring alternation of a non-empty list (an empty list yields a
never-matching pattern; the source never builds one). -/
def RE.altl : List RE → RE
  | [] => RE.cls (fun _ => false)
  | [a] => a
  | a :: rest => RE.alt a (RE.altl rest)

def wsC : RE := RE.cls isSpaceChar
def wordC : RE := RE.cls isWordChar
def digC : RE := RE.cls Char.isDigit

/-- `\s+` -/
def wsPlus : RE := RE.plus wsC
/-- `\s*` -/
def wsStar : RE := RE.star wsC
/-- `\w+` -/
def wordPlus : RE := RE.plus wordC

def RE.catl : List RE → RE
  | [] => RE.eps
  | [a] => a
  | a :: rest => RE.cat a (RE.catl rest)

/-- `\b` + literal keyword + `\b` — the matcher for literal keyword rules
(`re.findall(r'\b' + re.escape(kw) + r'\b', text)`). -/
def wordRE (kw : List Char) : RE :=
  RE.catl [RE.bnd, RE.litl kw, RE.bnd]

/-- Literal keyword occurrence count on a text side. -/
def countWB (kw : List Char) (s : List Char) : Nat :=
  countRE (wordRE kw) s

/-! ## Topics and keyword tables -/

/-- The five canonical topics, in `LABEL_ORDER` position. -/
inductive Topic where
  | billing
  | technical
  | usage
  | account
  | feedback
deriving DecidableEq

/-- `LABEL_ORDER = ["Billing and Payment", "Technical Issue", "Product Usage",
"Account and Access", "General Feedback"]`. -/
def LABEL_ORDER : List Topic :=
  [Topic.billing, Topic.technical, Topic.usage, Topic.account, Topic.feedback]

def CONFIDENCE_THRESHOLD : ℚ := 11 / 20

def FALLBACK_MARGIN : ℚ := 1 / 20

/-- A positive keyword rule: a literal phrase or a regex pattern, with a
weight (the source's 2-tuples resp. 3-tuples with `item[2] = True`). -/
inductive KwRule where
  | lit : String → ℚ → KwRule
  | rex : RE → ℚ → KwRule

/-- `\bfail(s|ed)?\s+to\s+load\b` -/
def rexFailToLoad : RE :=
  RE.catl [RE.bnd, RE.cis "fail", RE.opt (RE.alt (RE.cis "s") (RE.cis "ed")),
    wsPlus, RE.cis "to", wsPlus, RE.cis "load", RE.bnd]

/-- `\bdoes\s+not\s+load\b` -/
def rexDoesNotLoad : RE :=
  RE.catl [RE.bnd, RE.cis "does", wsPlus, RE.cis "not", wsPlus, RE.cis "load", RE.bnd]

/-- `\b(can't|cannot|won't)\s+load\b` -/
def rexCantLoad : RE :=
  RE.catl [RE.bnd,
    RE.altl [RE.cis ("can" ++ apos ++ "t"), RE.cis "cannot", RE.cis ("won" ++ apos ++ "t")],
    wsPlus, RE.cis "load", RE.bnd]

/-- `\b(spinner|spinning\s+wheel|loading\s+forever|stuck\s+loading)\b` -/
def rexSpinner : RE :=
  RE.catl [RE.bnd,
    RE.altl [RE.cis "spinner",
      RE.catl [RE.cis "spinning", wsPlus, RE.cis "wheel"],
      RE.catl [RE.cis "loading", wsPlus, RE.cis "forever"],
      RE.catl [RE.cis "stuck", wsPlus, RE.cis "loading"]],
    RE.bnd]

/-- `\b(timeout|timed\s*out|latency)\b` -/
def rexTimeout : RE :=
  RE.catl [RE.bnd,
    RE.altl [RE.cis "timeout", RE.catl [RE.cis "timed", wsStar, RE.cis "out"], RE.cis "latency"],
    RE.bnd]

/-- `\b(crash(es|ed)?|freez(e|ing)|unresponsive)\b` -/
def rexCrash : RE :=
  RE.catl [RE.bnd,
    RE.altl [RE.cat (RE.cis "crash") (RE.opt (RE.alt (RE.cis "es") (RE.cis "ed"))),
      RE.cat (RE.cis "freez") (RE.alt (RE.cis "e") (RE.cis "ing")),
      RE.cis "unresponsive"],
    RE.bnd]

/-- `\b(outage|incident|service\s+down)\b` -/
def rexOutage : RE :=
  RE.catl [RE.bnd,
    RE.altl [RE.cis "outage", RE.cis "incident",
      RE.catl [RE.cis "service", wsPlus, RE.cis "down"]],
    RE.bnd]

/-- `\b(5\d{2}|4\d{2}|500|502|503|504|404|401|403)\b` -/
def rexHttpCode : RE :=
  RE.catl [RE.bnd,
    RE.altl [RE.catl [RE.lit1 '5', digC, digC], RE.catl [RE.lit1 '4', digC, digC],
      RE.lits "500", RE.lits "502", RE.lits "503", RE.lits "504",
      RE.lits "404", RE.lits "401", RE.lits "403"],
    RE.bnd]

/-- `\b(error\s*code\s*\d+|exception|stack\s*trace)\b` -/
def rexErrorCode : RE :=
  RE.catl [RE.bnd,
    RE.altl [RE.catl [RE.cis "error", wsStar, RE.cis "code", wsStar, RE.plus digC],
      RE.cis "exception",
      RE.catl [RE.cis "stack", wsStar, RE.cis "trace"]],
    RE.bnd]

/-- `self.keywords[topic]["positive"]`, transcribed verbatim. -/
def positiveRules : Topic → List KwRule
  | Topic.billing =>
    [KwRule.lit "invoice" 1, KwRule.lit "billing" 1, KwRule.lit "payment" 1,
     KwRule.lit "charge" 1, KwRule.lit "refund" 1, KwRule.lit "credit" 1,
     KwRule.lit "receipt" 1, KwRule.lit "subscription" 1, KwRule.lit "renewal" 1,
     KwRule.lit "proration" 1, KwRule.lit "vat" 1, KwRule.lit "tax" 1,
     KwRule.lit "overbilled" 1, KwRule.lit "declined" 1, KwRule.lit "failed payment" 1,
     KwRule.lit "credit card" 1, KwRule.lit "billing address" 1, KwRule.lit "price" 1,
     KwRule.lit "cost" 1, KwRule.lit "fee" 1, KwRule.lit "upgrade cost" 1,
     KwRule.lit "downgrade" 1, KwRule.lit "plan change" 1, KwRule.lit "annual billing" 1]
  | Topic.technical =>
    [KwRule.lit "bug" 1, KwRule.lit "error" 1, KwRule.lit "crash" 1,
     KwRule.lit "failure" 1, KwRule.lit "exception" 1, KwRule.lit "stack trace" 1,
     KwRule.lit "broken" 1, KwRule.lit "ssl error" 1, KwRule.lit "api error" 1,
     KwRule.lit "webhook" 1, KwRule.lit "integration" 1, KwRule.lit "sso error" 1,
     KwRule.lit "database error" 1,
     KwRule.rex rexFailToLoad 3, KwRule.rex rexDoesNotLoad 3, KwRule.rex rexCantLoad 3,
     KwRule.rex rexSpinner 3, KwRule.rex rexTimeout 3, KwRule.rex rexCrash 3,
     KwRule.rex rexOutage 3, KwRule.rex rexHttpCode 3, KwRule.rex rexErrorCode 3]
  | Topic.usage =>
    [KwRule.lit "how to" 1, KwRule.lit "how do i" 1, KwRule.lit "tutorial" 1,
     KwRule.lit "guide" 1, KwRule.lit "best practice" 1, KwRule.lit "example" 1,
     KwRule.lit "configure" 1, KwRule.lit "setup" 1, KwRule.lit "set up" 1,
     KwRule.lit "export" 1, KwRule.lit "report" 1, KwRule.lit "dashboard customization" 1,
     KwRule.lit "workflow" 1]
  | Topic.account =>
    [KwRule.lit "login" 1, KwRule.lit "password" 1, KwRule.lit "reset password" 1,
     KwRule.lit "forgot password" 1, KwRule.lit "mfa" 1, KwRule.lit "2fa" 1,
     KwRule.lit "sso" 1, KwRule.lit "single sign" 1, KwRule.lit "role" 1,
     KwRule.lit "permission" 1, KwRule.lit "access denied" 1, KwRule.lit "cannot access" 1,
     KwRule.lit "locked out" 1, KwRule.lit "account locked" 1, KwRule.lit "invite" 1,
     KwRule.lit "user management" 1, KwRule.lit "deactivate" 1, KwRule.lit "seat" 1,
     KwRule.lit "license" 1, KwRule.lit "org admin" 1, KwRule.lit "tenant" 1,
     KwRule.lit "unauthorized" 1]
  | Topic.feedback =>
    [KwRule.lit "love" 1, KwRule.lit "great" 1, KwRule.lit "awesome" 1,
     KwRule.lit "terrible" 1, KwRule.lit "hate" 1, KwRule.lit "suggestion" 1,
     KwRule.lit "feedback" 1, KwRule.lit "improvement" 1, KwRule.lit "complain" 1,
     KwRule.lit "complaint" 1, KwRule.lit "praise" 1, KwRule.lit "recommend" 1,
     KwRule.lit "review" 1, KwRule.lit "ui cluttered" 1, KwRule.lit "pricing high" 1,
     KwRule.lit "expensive" 1, KwRule.lit "feature missing" 1, KwRule.lit "would like" 1,
     KwRule.lit "wish you had" 1]

/-- `self.keywords[topic]["negative"]`, transcribed verbatim. -/
def negativeRules : Topic → List (String × ℚ)
  | Topic.billing => [("not a billing", 1), ("not billing", 1), ("no billing issue", 1)]
  | Topic.technical => [("not a bug", 1), ("not an error", 1), ("working fine", 1)]
  | Topic.usage => [("don" ++ apos ++ "t need help", 1), ("figured it out", 1)]
  | Topic.account => [("can access", 1), ("login working", 1), ("no access issues", 1)]
  | Topic.feedback => []

/-! ## Negation detection (`TicketClassifier.detect_negation`) -/

def negation_words : List String :=
  ["not", "no", "can" ++ apos ++ "t", "cannot", "unable",
   "isn" ++ apos ++ "t", "doesn" ++ apos ++ "t", "won" ++ apos ++ "t"]

/-- `r'\b(?:not|no|…)\s+(?:\w+\s+){0,2}' + re.escape(keyword)`. -/
def negationRE (kw : List Char) : RE :=
  RE.catl [RE.bnd, RE.altl (negation_words.map RE.lits),
    wsPlus, RE.rep (RE.cat wordPlus wsPlus) 2, RE.litl kw]

/-- `TicketClassifier.detect_negation`: a negation cue appears before the
keyword with at most two intervening words. -/
def detect_negation (text kw : List Char) : Bool :=
  REsearch (negationRE kw) text

/-! ## Heuristic scoring (`TicketClassifier.calculate_heuristic_scores`) -/

/-- `len(text.split())`: the number of maximal non-whitespace runs (the
flag records whether we are inside such a run). -/
def tokenCountAux : Bool → List Char → Nat
  | _, [] => 0
  | inWord, c :: rest =>
    if isSpaceChar c then tokenCountAux false rest
    else (if inWord then 0 else 1) + tokenCountAux true rest

def tokenCount (l : List Char) : Nat := tokenCountAux false l

/-- Subject weight: 0.3 for a (normalized) subject of at most two
whitespace-separated tokens, else 0.4. -/
def subject_weight_of (subjN : List Char) : ℚ :=
  if tokenCount subjN ≤ 2 then 3 / 10 else 2 / 5

/-- The 1.4× subject multiplier for "Technical Issue". -/
def subject_multiplier (t : Topic) : ℚ :=
  if t = Topic.technical then 7 / 5 else 1

/-- Raw literal-rule match count on one side after negation adjustment:
`n` matches become `-n * 0.5` when a negation cue precedes the keyword. -/
def adjustedMatches (kw : String) (textN : List Char) : ℚ :=
  let m := countWB kw.data textN
  if 0 < m && detect_negation textN kw.data then -(m : ℚ) * (1 / 2) else (m : ℚ)

/-- Contribution of one positive rule:
`(subject_matches*subject_weight*subject_multiplier + body_matches*body_weight)*weight`;
negation adjustment applies only to literal rules. -/
def posRuleScore (t : Topic) (sw bw : ℚ) (subjN bodyN : List Char) : KwRule → ℚ
  | KwRule.lit kw w =>
    (adjustedMatches kw subjN * sw * subject_multiplier t + adjustedMatches kw bodyN * bw) * w
  | KwRule.rex r w =>
    ((countRE r subjN : ℚ) * sw * subject_multiplier t + (countRE r bodyN : ℚ) * bw) * w

/-- The topic's accumulated positive-rule score. -/
def positivePart (t : Topic) (sw bw : ℚ) (subjN bodyN : List Char) : ℚ :=
  ((positiveRules t).map (posRuleScore t sw bw subjN bodyN)).sum

/-- Deduction of one negative rule:
`(subject_matches*subject_weight + body_matches*body_weight)*weight*0.5`
(no subject multiplier, no negation detection). -/
def negRuleScore (sw bw : ℚ) (subjN bodyN : List Char) (p : String × ℚ) : ℚ :=
  ((countWB p.1.data subjN : ℚ) * sw + (countWB p.1.data bodyN : ℚ) * bw) * p.2 * (1 / 2)

/-- Total deduction of the topic's negative rules. -/
def negativePart (t : Topic) (sw bw : ℚ) (subjN bodyN : List Char) : ℚ :=
  ((negativeRules t).map (negRuleScore sw bw subjN bodyN)).sum

/-- `f"{subject_norm} {body_norm}".strip()`. -/
def combinedText (subjN bodyN : List Char) : List Char :=
  stripChars (subjN ++ ' ' :: bodyN)

/-- `r'\bhelp( needed)?\b'` -/
def helpRE : RE :=
  RE.catl [RE.bnd, RE.cis "help", RE.opt (RE.cis " needed"), RE.bnd]

def has_generic_help (combined : List Char) : Bool :=
  REsearch helpRE combined

/-- The regex subset of the Technical-Issue positive rules
(`len(item) == 3 and item[2]`). -/
def hard_cue_patterns : List RE :=
  (positiveRules Topic.technical).filterMap fun r =>
    match r with
    | KwRule.rex p _ => some p
    | _ => none

def has_technical_hard_cue (combined : List Char) : Bool :=
  hard_cue_patterns.any fun p => REsearch p combined

def how_to_cues : List String :=
  ["how to", "how do i", "tutorial", "guide", "best practice", "example",
   "configure", "setup", "set up"]

/-- `help(?:\s+needed)?` -/
def helpNeededRE : RE :=
  RE.cat (RE.cis "help") (RE.opt (RE.cat wsPlus (RE.cis "needed")))

/-- `r'\b(?:help(?:\s+needed)?(?:\s+\w+){0,4}\s+CUE|CUE(?:\s+\w+){0,4}\s+help(?:\s+needed)?)\b'` -/
def nearHelpRE (cue : String) : RE :=
  RE.catl [RE.bnd,
    RE.alt
      (RE.catl [helpNeededRE, RE.rep (RE.cat wsPlus wordPlus) 4, wsPlus, RE.cis cue])
      (RE.catl [RE.cis cue, RE.rep (RE.cat wsPlus wordPlus) 4, wsPlus, helpNeededRE]),
    RE.bnd]

def has_how_to_near_help (combined : List Char) : Bool :=
  how_to_cues.any fun cue => REsearch (nearHelpRE cue) combined

/-- The Product-Usage override: halve the running score when generic help
and a hard technical cue are present and no how-to cue is near the help. -/
def usageOverride (combined : List Char) (score : ℚ) : ℚ :=
  if has_generic_help combined && has_technical_hard_cue combined &&
      !has_how_to_near_help combined
  then score * (1 / 2) else score

/-- A topic's running score right before the `max(0, score)` clamp. -/
def rawScore (subject body : String) (t : Topic) : ℚ :=
  let subjN := normalize_text subject
  let bodyN := normalize_text body
  let sw := subject_weight_of subjN
  let bw := 1 - sw
  let pos := positivePart t sw bw subjN bodyN
  let pos2 := if t = Topic.usage then usageOverride (combinedText subjN bodyN) pos else pos
  pos2 - negativePart t sw bw subjN bodyN

/-- `scores[topic] = max(0, score)`. -/
def clampedScore (subject body : String) (t : Topic) : ℚ :=
  max 0 (rawScore subject body t)

/-- `total_score = sum(scores.values())`. -/
def totalScore (subject body : String) : ℚ :=
  (LABEL_ORDER.map (clampedScore subject body)).sum

/-- `TicketClassifier.calculate_heuristic_scores`: the heuristic
Distribution, keyed in `LABEL_ORDER` order; uniform 0.2 when the clamped
scores sum to zero. -/
def calculate_heuristic_scores (subject body : String) : List (Topic × ℚ) :=
  if totalScore subject body = 0 then
    LABEL_ORDER.map fun t => (t, 1 / 5)
  else
    LABEL_ORDER.map fun t => (t, clampedScore subject body t / totalScore subject body)

/-! ## Sorting and maxima (Python `sorted(..., reverse=True)` and `max`) -/

/-- `sorted(values, reverse=True)`. -/
def sortDesc (l : List ℚ) : List ℚ :=
  l.insertionSort (fun a b => a ≥ b)

/-- `sorted_probs[0]` (0 is never used: callers pass non-empty lists). -/
def maxProbOf (vals : List ℚ) : ℚ :=
  (sortDesc vals).headD 0

/-- `sorted_probs[0] - sorted_probs[1] if len(sorted_probs) > 1 else max_prob`. -/
def marginOf (vals : List ℚ) : ℚ :=
  match sortDesc vals with
  | s0 :: s1 :: _ => s0 - s1
  | _ => maxProbOf vals

/-- Python `max` over a list of numbers (callers pass non-empty lists). -/
def pyMaxQ : List ℚ → ℚ
  | [] => 0
  | x :: xs => xs.foldl max x

/-- Python `max(d.keys(), key=d.get)`: fold keeping the first entry whose
value is not exceeded later (`>` replaces, ties keep the earlier entry). -/
def pyMaxFold (best : Topic × ℚ) : List (Topic × ℚ) → Topic × ℚ
  | [] => best
  | p :: ps => pyMaxFold (if p.2 > best.2 then p else best) ps

def pyMaxKey : List (Topic × ℚ) → Option Topic
  | [] => none
  | p :: ps => some (pyMaxFold p ps).1

/-- `d[t]` on an association list (0 for an absent key; never hit by the
source, whose lookups always follow a key obtained from the same dict). -/
def lookupD (d : List (Topic × ℚ)) (t : Topic) : ℚ :=
  match d.find? (fun p => p.1 == t) with
  | some p => p.2
  | none => 0

/-- The spec's arg-max: the first topic in `ord` whose probability is
maximal ("ties broken by LABEL_ORDER position"). -/
def argmaxByOrder (ord : List Topic) (d : List (Topic × ℚ)) : Option Topic :=
  ord.find? fun t => ord.all fun u => lookupD d u ≤ lookupD d t

/-! ## The statistical model and `TicketClassifier.predict_probabilities`

The fitted vectorizer + classifier pair is external library state.  It is
modelled as the encoder's class list (`label_encoder.inverse_transform` of
`range(n)`) together with an opaque function giving, per document, the
probability array `ml_probs_array`. -/

structure MLModel where
  classes : List Topic
  predictArr : String → List ℚ

/-- `f"{str(subject)} {str(body)}".strip()` — the document handed to the
vectorizer. -/
def docOf (subject body : String) : String :=
  String.mk (stripChars (subject.data ++ ' ' :: body.data))

/-- `ml_probs = dict(zip(ml_labels, ml_probs_array))` followed by
materializing every absent canonical label with probability 0.0
(in `LABEL_ORDER` order). -/
def mlProbsDict (classes : List Topic) (arr : List ℚ) : List (Topic × ℚ) :=
  let base := classes.zip arr
  base ++ (LABEL_ORDER.filter fun l => !(base.any fun p => p.1 == l)).map fun l => (l, 0)

/-- The gate of `predict_probabilities`:
`max_prob >= CONFIDENCE_THRESHOLD and margin >= FALLBACK_MARGIN`,
computed over the values of the materialized five-key dict. -/
def gateAccepts (vals : List ℚ) : Bool :=
  CONFIDENCE_THRESHOLD ≤ maxProbOf vals && FALLBACK_MARGIN ≤ marginOf vals

/-- `TicketClassifier.predict_probabilities`: returns
`(predicted_topic, confidence, final_probs)`. -/
def predict_probabilities (ml : Option MLModel) (subject body : String) :
    Topic × ℚ × List (Topic × ℚ) :=
  let heuristic_probs := calculate_heuristic_scores subject body
  let final_probs :=
    match ml with
    | some m =>
      let mlp := mlProbsDict m.classes (m.predictArr (docOf subject body))
      if gateAccepts (mlp.map Prod.snd) then mlp else heuristic_probs
    | none => heuristic_probs
  let predicted := (pyMaxKey final_probs).getD Topic.billing
  (predicted, lookupD final_probs predicted, final_probs)

/-! ## Batch loop and fallback bookkeeping (`TicketClassifier.classify_tickets`) -/

/-- The separately-coded fallback bookkeeping gate of `classify_tickets`:
`max_ml_prob < CONFIDENCE_THRESHOLD or margin < FALLBACK_MARGIN`, computed
over the *raw* probability array (no zero-filled labels). -/
def bookkeepingFallback (arr : List ℚ) : Bool :=
  let maxMl := pyMaxQ arr
  let margin :=
    match sortDesc arr with
    | s0 :: s1 :: _ => s0 - s1
    | _ => maxMl
  maxMl < CONFIDENCE_THRESHOLD || margin < FALLBACK_MARGIN

/-- Per-ticket classification results plus the accumulated
`fallback_count` of `classify_tickets` (the model was trained just before
this loop, so it is present). -/
def classify_tickets (m : MLModel) (tickets : List (String × String)) :
    List (Topic × ℚ × List (Topic × ℚ)) × Nat :=
  (tickets.map fun t => predict_probabilities (some m) t.1 t.2,
   tickets.countP fun t => bookkeepingFallback (m.predictArr (docOf t.1 t.2)))

/-- `fallback_rate = fallback_count / len(df) if len(df) > 0 else 0`. -/
def fallback_rate (m : MLModel) (tickets : List (String × String)) : ℚ :=
  if tickets.length = 0 then 0
  else ((classify_tickets m tickets).2 : ℚ) / (tickets.length : ℚ)

/-- Does the gate of `predict_probabilities` select the statistical
distribution for this ticket? -/
def gateSelectsML (m : MLModel) (subject body : String) : Bool :=
  gateAccepts ((mlProbsDict m.classes (m.predictArr (docOf subject body))).map Prod.snd)

/-! ## Pseudo-probabilities of the uncalibrated fallback classifier

`predict_probabilities` lines 460–467: when the trained model is the plain
`LinearSVC` (calibration failed), probabilities are derived from
`decision_function` output.  The float `exp` is modelled as the real
exponential. -/

/-- Binary case:
`np.array([1 / (1 + np.exp(-d)), 1 / (1 + np.exp(d))])` — index 0 is the
first encoder class, index 1 the second. -/
noncomputable def binary_pseudo_probs (d : ℝ) : List ℝ :=
  [1 / (1 + Real.exp (-d)), 1 / (1 + Real.exp d)]

/-- Python `max` over a non-empty real list (`np.max`). -/
def pyMaxR : List ℝ → ℝ
  | [] => 0
  | x :: xs => xs.foldl max x

/-- Multi-class case: softmax over the per-class margins,
`exp(scores - max(scores)) / sum(...)`. -/
noncomputable def softmax_pseudo_probs (scores : List ℝ) : List ℝ :=
  let m := pyMaxR scores
  let exps := scores.map fun x => Real.exp (x - m)
  exps.map fun e => e / exps.sum

/-- Modelled from the spec: scikit-learn's binary decision rule, which the
source relies on via `LinearSVC.decision_function` — a positive decision
score predicts the second encoder class (index 1), a non-positive one the
first (index 0).  This library convention is not part of `src/`. -/
noncomputable def favoredBinaryClass (d : ℝ) : Nat :=
  if 0 < d then 1 else 0

/-! ## Helper lemmas: folds, sorting, maxima -/

theorem foldl_max_mem (l : List ℚ) (a : ℚ) : l.foldl max a ∈ a :: l := by
  induction l generalizing a with
  | nil => simp
  | cons b t ih =>
    have h := ih (max a b)
    simp only [List.foldl_cons]
    rcases List.mem_cons.1 h with h1 | h1
    · rcases max_choice a b with hc | hc
      · rw [h1, hc]; exact List.mem_cons_self _ _
      · rw [h1, hc]; exact List.mem_cons.2 (Or.inr (List.mem_cons_self _ _))
    · exact List.mem_cons.2 (Or.inr (List.mem_cons.2 (Or.inr h1)))

theorem le_foldl_max_init (l : List ℚ) (a : ℚ) : a ≤ l.foldl max a := by
  induction l generalizing a with
  | nil => simp
  | cons b t ih => exact le_trans (le_max_left a b) (ih (max a b))

theorem le_foldl_max_mem (l : List ℚ) : ∀ (a x : ℚ), x ∈ l → x ≤ l.foldl max a := by
  induction l with
  | nil => intro a x hx; simp at hx
  | cons b t ih =>
    intro a x hx
    simp only [List.foldl_cons]
    rcases List.mem_cons.1 hx with h1 | h1
    · subst h1
      exact le_trans (le_max_right a x) (le_foldl_max_init t (max a x))
    · exact ih (max a b) x h1

theorem pyMaxQ_mem (l : List ℚ) (hl : l ≠ []) : pyMaxQ l ∈ l := by
  cases l with
  | nil => exact absurd rfl hl
  | cons x xs => exact foldl_max_mem xs x

theorem le_pyMaxQ (l : List ℚ) (x : ℚ) (hx : x ∈ l) : x ≤ pyMaxQ l := by
  cases l with
  | nil => simp at hx
  | cons y ys =>
    rcases List.mem_cons.1 hx with h1 | h1
    · subst h1; exact le_foldl_max_init ys x
    · exact le_foldl_max_mem ys y x h1

theorem sortDesc_perm (l : List ℚ) : List.Perm (sortDesc l) l :=
  List.perm_insertionSort _ l

theorem sortDesc_sorted (l : List ℚ) : List.Sorted (fun a b : ℚ => a ≥ b) (sortDesc l) :=
  List.sorted_insertionSort _ l

theorem sortDesc_length (l : List ℚ) : (sortDesc l).length = l.length :=
  (sortDesc_perm l).length_eq

/-- The head of the descending sort is the Python `max`. -/
theorem sortDesc_head_eq_pyMaxQ (l : List ℚ) (hl : l ≠ []) :
    (sortDesc l).headD 0 = pyMaxQ l := by
  have hperm := sortDesc_perm l
  have hsort := sortDesc_sorted l
  have hne : sortDesc l ≠ [] := by
    intro h
    apply hl
    have hlen := sortDesc_length l
    rw [h] at hlen
    exact List.eq_nil_of_length_eq_zero hlen.symm
  obtain ⟨h, t, hht⟩ := List.exists_cons_of_ne_nil hne
  rw [hht, List.headD_cons]
  rw [hht] at hperm hsort
  have hhmem : h ∈ l := hperm.mem_iff.1 (List.mem_cons_self h t)
  have hdom : ∀ x ∈ l, x ≤ h := by
    intro x hx
    have hx' : x ∈ h :: t := hperm.symm.mem_iff.1 hx
    rcases List.mem_cons.1 hx' with h1 | h1
    · exact le_of_eq h1
    · exact (List.sorted_cons.1 hsort).1 x h1
  exact le_antisymm (le_pyMaxQ l h hhmem) (hdom _ (pyMaxQ_mem l hl))

/-- Every element is at most the head of the descending sort. -/
theorem le_sortDesc_head (l : List ℚ) (x : ℚ) (hx : x ∈ l) :
    x ≤ (sortDesc l).headD 0 := by
  have hl : l ≠ [] := List.ne_nil_of_mem hx
  rw [sortDesc_head_eq_pyMaxQ l hl]
  exact le_pyMaxQ l x hx

/-- Appending zeros to a list of non-negative values sorts as the sorted
list followed by the zeros. -/
theorem sortDesc_append_zeros (l : List ℚ) (k : Nat) (hl : ∀ x ∈ l, 0 ≤ x) :
    sortDesc (l ++ List.replicate k 0) = sortDesc l ++ List.replicate k 0 := by
  have hperm : List.Perm (sortDesc (l ++ List.replicate k 0))
      (sortDesc l ++ List.replicate k 0) := by
    refine (sortDesc_perm _).trans ?_
    exact List.Perm.append_right _ (sortDesc_perm l).symm
  apply List.eq_of_perm_of_sorted hperm (sortDesc_sorted _)
  rw [List.Sorted, List.pairwise_append]
  refine ⟨sortDesc_sorted l, ?_, ?_⟩
  · rw [List.pairwise_replicate]
    right; exact le_refl 0
  · intro a ha b hb
    rw [List.eq_of_mem_replicate hb]
    exact hl a ((sortDesc_perm l).mem_iff.1 ha)

/-! ## Helper lemmas: Python `max(keys, key=get)` vs. order-tie-broken arg-max -/

theorem mem_LABEL_ORDER (t : Topic) : t ∈ LABEL_ORDER := by
  cases t <;> simp [LABEL_ORDER]

theorem pyMaxFold_of_le (l : List (Topic × ℚ)) (best : Topic × ℚ)
    (h : ∀ p ∈ l, p.2 ≤ best.2) : pyMaxFold best l = best := by
  induction l with
  | nil => rfl
  | cons p ps ih =>
    have hp : ¬ p.2 > best.2 := not_lt.2 (h p (List.mem_cons_self p ps))
    simp only [pyMaxFold, if_neg hp]
    exact ih fun q hq => h q (List.mem_cons.2 (Or.inr hq))

theorem pyMaxFold_firstmax (pre : List (Topic × ℚ)) (e : Topic × ℚ) :
    ∀ (post : List (Topic × ℚ)) (best : Topic × ℚ),
      (∀ p ∈ pre, p.2 < e.2) → best.2 < e.2 → (∀ p ∈ post, p.2 ≤ e.2) →
      pyMaxFold best (pre ++ e :: post) = e := by
  induction pre with
  | nil =>
    intro post best _ hbest hpost
    simp only [List.nil_append, pyMaxFold, if_pos hbest]
    exact pyMaxFold_of_le post e hpost
  | cons p0 pre' ih =>
    intro post best hpre hbest hpost
    simp only [List.cons_append, pyMaxFold]
    have h0 : p0.2 < e.2 := hpre p0 (List.mem_cons_self _ _)
    by_cases hc : p0.2 > best.2
    · rw [if_pos hc]
      exact ih post p0 (fun q hq => hpre q (List.mem_cons.2 (Or.inr hq))) h0 hpost
    · rw [if_neg hc]
      exact ih post best (fun q hq => hpre q (List.mem_cons.2 (Or.inr hq))) hbest hpost

/-- Every non-empty dict has a first entry attaining the maximal value. -/
theorem exists_firstmax (d : List (Topic × ℚ)) (hd : d ≠ []) :
    ∃ pre e post, d = pre ++ e :: post ∧ (∀ p ∈ pre, p.2 < e.2) ∧ ∀ p ∈ d, p.2 ≤ e.2 := by
  induction d with
  | nil => exact absurd rfl hd
  | cons p rest ih =>
    by_cases hrest : rest = []
    · subst hrest
      exact ⟨[], p, [], rfl, by simp, by simp⟩
    · obtain ⟨pre, e, post, hdec, hpre, hall⟩ := ih hrest
      rcases le_or_lt e.2 p.2 with hle | hlt
      · refine ⟨[], p, rest, rfl, by simp, ?_⟩
        intro q hq
        rcases List.mem_cons.1 hq with h1 | h1
        · exact le_of_eq (by rw [h1])
        · exact le_trans (hall q h1) hle
      · refine ⟨p :: pre, e, post, by rw [hdec, List.cons_append], ?_, ?_⟩
        · intro q hq
          rcases List.mem_cons.1 hq with h1 | h1
          · rw [h1]; exact hlt
          · exact hpre q h1
        · intro q hq
          rcases List.mem_cons.1 hq with h1 | h1
          · rw [h1]; exact le_of_lt hlt
          · exact hall q h1

theorem pyMaxKey_of_firstmax (d pre post : List (Topic × ℚ)) (e : Topic × ℚ)
    (hdec : d = pre ++ e :: post) (hpre : ∀ p ∈ pre, p.2 < e.2)
    (hall : ∀ p ∈ d, p.2 ≤ e.2) : pyMaxKey d = some e.1 := by
  subst hdec
  cases pre with
  | nil =>
    simp only [List.nil_append, pyMaxKey]
    rw [pyMaxFold_of_le post e fun q hq =>
      hall q (List.mem_cons.2 (Or.inr hq))]
  | cons p0 pre' =>
    simp only [List.cons_append, pyMaxKey]
    rw [pyMaxFold_firstmax pre' e post p0
      (fun q hq => hpre q (List.mem_cons.2 (Or.inr hq)))
      (hpre p0 (List.mem_cons_self _ _))
      (fun q hq => hall q (by
        simp only [List.cons_append, List.mem_cons, List.mem_append]
        exact Or.inr (Or.inr (Or.inr hq))))]

theorem lookupD_of_mem_nodup (d : List (Topic × ℚ)) (p : Topic × ℚ)
    (hnd : (d.map Prod.fst).Nodup) (hp : p ∈ d) : lookupD d p.1 = p.2 := by
  induction d with
  | nil => simp at hp
  | cons q rest ih =>
    rcases List.mem_cons.1 hp with h1 | h1
    · subst h1
      simp [lookupD, List.find?_cons_of_pos]
    · have hqp : q.1 ≠ p.1 := by
        intro hcontr
        have : p.1 ∈ rest.map Prod.fst := List.mem_map.2 ⟨p, h1, rfl⟩
        rw [List.map_cons] at hnd
        exact (List.nodup_cons.1 hnd).1 (hcontr ▸ this)
      have hrest : (rest.map Prod.fst).Nodup := by
        rw [List.map_cons] at hnd
        exact (List.nodup_cons.1 hnd).2
      have hfind : (q.1 == p.1) = false := by
        simp [hqp]
      simp only [lookupD, List.find?, hfind]
      exact ih hrest h1

theorem find?_first_unique (ord : List Topic) (p : Topic → Bool) (t : Topic)
    (ht : t ∈ ord) (hpt : p t = true) (hother : ∀ u ∈ ord, u ≠ t → p u = false) :
    ord.find? p = some t := by
  induction ord with
  | nil => simp at ht
  | cons u rest ih =>
    by_cases hu : u = t
    · subst hu
      exact List.find?_cons_of_pos _ hpt
    · rw [List.find?_cons_of_neg _ (by rw [hother u (List.mem_cons_self _ _) hu]; simp)]
      exact ih (List.mem_cons.1 ht |>.resolve_left fun h => hu h.symm)
        fun v hv hvt => hother v (List.mem_cons.2 (Or.inr hv)) hvt

theorem find?_append_first (l1 l2 : List Topic) (p : Topic → Bool) (t : Topic)
    (h1 : ∀ u ∈ l1, p u = false) (ht : p t = true) :
    (l1 ++ t :: l2).find? p = some t := by
  rw [List.find?_append, List.find?_eq_none.2 (fun x hx => by rw [h1 x hx]; simp)]
  simp only [Option.or]
  exact List.find?_cons_of_pos _ ht

theorem argmaxByOrder_of_firstmax (d pre post : List (Topic × ℚ)) (e : Topic × ℚ)
    (hdec : d = pre ++ e :: post) (hnd : (d.map Prod.fst).Nodup)
    (hpre : ∀ p ∈ pre, p.2 < e.2) (hall : ∀ p ∈ d, p.2 ≤ e.2) :
    argmaxByOrder (d.map Prod.fst) d = some e.1 := by
  have hed : e ∈ d := hdec ▸ List.mem_append.2 (Or.inr (List.mem_cons_self _ _))
  have hlooke : lookupD d e.1 = e.2 := lookupD_of_mem_nodup d e hnd hed
  have hmap : d.map Prod.fst = pre.map Prod.fst ++ e.1 :: post.map Prod.fst := by
    rw [hdec]; simp
  have hPe : (d.map Prod.fst).all (fun u => decide (lookupD d u ≤ lookupD d e.1)) = true := by
    rw [List.all_eq_true]
    intro u hu
    obtain ⟨q, hq, hq1⟩ := List.mem_map.1 hu
    rw [← hq1, lookupD_of_mem_nodup d q hnd hq, hlooke]
    exact decide_eq_true (hall q hq)
  have hfalse : ∀ u ∈ pre.map Prod.fst,
      (d.map Prod.fst).all (fun v => decide (lookupD d v ≤ lookupD d u)) = false := by
    intro u hu
    rw [Bool.eq_false_iff]
    intro hP
    obtain ⟨q, hq, hq1⟩ := List.mem_map.1 hu
    have he1 : e.1 ∈ d.map Prod.fst := List.mem_map.2 ⟨e, hed, rfl⟩
    have hle := List.all_eq_true.1 hP e.1 he1
    rw [hlooke, ← hq1,
      lookupD_of_mem_nodup d q hnd (hdec ▸ List.mem_append.2 (Or.inl hq))] at hle
    exact absurd (of_decide_eq_true hle) (not_le.2 (hpre q hq))
  unfold argmaxByOrder
  rw [hmap] at hPe hfalse ⊢
  exact find?_append_first _ _ _ _ hfalse hPe

theorem argmaxByOrder_of_uniquemax (ord : List Topic) (d : List (Topic × ℚ)) (e : Topic × ℚ)
    (hed : e ∈ d) (hnd : (d.map Prod.fst).Nodup)
    (hkeys : ∀ u ∈ ord, u ∈ d.map Prod.fst) (hmem : e.1 ∈ ord)
    (hall : ∀ p ∈ d, p.2 ≤ e.2)
    (huniq : ∀ p ∈ d, p.1 ≠ e.1 → p.2 < e.2) :
    argmaxByOrder ord d = some e.1 := by
  unfold argmaxByOrder
  apply find?_first_unique ord _ e.1 hmem
  · rw [List.all_eq_true]
    intro u hu
    obtain ⟨q, hq, hq1⟩ := List.mem_map.1 (hkeys u hu)
    rw [← hq1, lookupD_of_mem_nodup d q hnd hq, lookupD_of_mem_nodup d e hnd hed]
    exact decide_eq_true (hall q hq)
  · intro u hu hne
    rw [Bool.eq_false_iff]
    intro hP
    obtain ⟨q, hq, hq1⟩ := List.mem_map.1 (hkeys u hu)
    have hle := List.all_eq_true.1 hP e.1 hmem
    rw [lookupD_of_mem_nodup d e hnd hed, ← hq1,
      lookupD_of_mem_nodup d q hnd hq] at hle
    exact absurd (of_decide_eq_true hle)
      (not_le.2 (huniq q hq (by rw [hq1]; exact hne)))

theorem pyMaxKey_of_uniquemax (d : List (Topic × ℚ)) (e : Topic × ℚ)
    (hed : e ∈ d) (hall : ∀ p ∈ d, p.2 ≤ e.2)
    (huniq : ∀ p ∈ d, p.1 ≠ e.1 → p.2 < e.2) :
    pyMaxKey d = some e.1 := by
  obtain ⟨pre, f, post, hdec, hpre, hfall⟩ := exists_firstmax d (List.ne_nil_of_mem hed)
  have hfd : f ∈ d := hdec ▸ List.mem_append.2 (Or.inr (List.mem_cons_self _ _))
  have hfe : f.2 = e.2 := le_antisymm (hall f hfd) (hfall e hed)
  have hf1 : f.1 = e.1 := by
    by_contra hne
    exact absurd hfe (ne_of_lt (huniq f hfd hne))
  rw [pyMaxKey_of_firstmax d pre post f hdec hpre hfall, hf1]

/-- For a dict whose key list is exactly the iteration order (the heuristic
distribution), Python's `max(keys, key=get)` agrees with the order-tie-broken
arg-max. -/
theorem pyMaxKey_eq_argmax_aligned (d : List (Topic × ℚ)) (hne : d ≠ [])
    (hnd : (d.map Prod.fst).Nodup) :
    ∃ t, pyMaxKey d = some t ∧ argmaxByOrder (d.map Prod.fst) d = some t := by
  obtain ⟨pre, e, post, hdec, hpre, hall⟩ := exists_firstmax d hne
  exact ⟨e.1, pyMaxKey_of_firstmax d pre post e hdec hpre hall,
    argmaxByOrder_of_firstmax d pre post e hdec hnd hpre hall⟩

/-! ## Helper lemmas: structure of the two distributions -/

theorem LABEL_ORDER_nodup : LABEL_ORDER.Nodup := by decide

theorem any_key_eq (classes : List Topic) (l : Topic) :
    classes.any (fun x => x == l) = decide (l ∈ classes) := by
  by_cases h : l ∈ classes
  · rw [decide_eq_true h, List.any_eq_true]
    exact ⟨l, h, by simp⟩
  · rw [decide_eq_false h, Bool.eq_false_iff]
    intro hA
    obtain ⟨x, hx, hxl⟩ := List.any_eq_true.1 hA
    exact h (beq_iff_eq.1 hxl ▸ hx)

theorem mlProbsDict_missing (classes : List Topic) (arr : List ℚ)
    (hlen : arr.length = classes.length) :
    mlProbsDict classes arr = classes.zip arr ++
      (LABEL_ORDER.filter fun l => !(decide (l ∈ classes))).map (fun l => (l, 0)) := by
  have hbase : (classes.zip arr).map Prod.fst = classes :=
    List.map_fst_zip _ _ (le_of_eq hlen.symm)
  have hfilt : (LABEL_ORDER.filter fun l => !((classes.zip arr).any fun p => p.1 == l)) =
      LABEL_ORDER.filter fun l => !(decide (l ∈ classes)) := by
    apply List.filter_congr
    intro l _
    have hany : ((classes.zip arr).any fun p => p.1 == l) = decide (l ∈ classes) := by
      by_cases h : l ∈ classes
      · rw [decide_eq_true h, List.any_eq_true]
        have hl : l ∈ (classes.zip arr).map Prod.fst := by rw [hbase]; exact h
        obtain ⟨p, hp, hpl⟩ := List.mem_map.1 hl
        exact ⟨p, hp, by simp [hpl]⟩
      · rw [decide_eq_false h, Bool.eq_false_iff]
        intro hA
        obtain ⟨p, hp, hpl⟩ := List.any_eq_true.1 hA
        apply h
        rw [← hbase]
        exact List.mem_map.2 ⟨p, hp, beq_iff_eq.1 hpl⟩
    rw [hany]
  show classes.zip arr ++
      (LABEL_ORDER.filter fun l => !((classes.zip arr).any fun p => p.1 == l)).map
        (fun l => (l, 0)) = _
  rw [hfilt]

theorem mlProbsDict_keys_perm (classes : List Topic) (arr : List ℚ)
    (hnd : classes.Nodup) (hlen : arr.length = classes.length) :
    List.Perm ((mlProbsDict classes arr).map Prod.fst) LABEL_ORDER := by
  rw [mlProbsDict_missing classes arr hlen, List.map_append,
    List.map_fst_zip _ _ (le_of_eq hlen.symm), List.map_map]
  have hcomp : (Prod.fst ∘ fun l : Topic => (l, (0:ℚ))) = id := rfl
  rw [hcomp, List.map_id]
  have h1 : List.Perm (LABEL_ORDER.filter fun l => decide (l ∈ classes)) classes := by
    refine (List.perm_ext_iff_of_nodup (List.Nodup.filter _ LABEL_ORDER_nodup) hnd).2 ?_
    intro t
    simp [List.mem_filter, mem_LABEL_ORDER]
  exact (List.Perm.append_right _ h1.symm).trans (List.filter_append_perm _ LABEL_ORDER)

theorem mlProbsDict_values (classes : List Topic) (arr : List ℚ)
    (hlen : arr.length = classes.length) :
    (mlProbsDict classes arr).map Prod.snd = arr ++
      List.replicate (LABEL_ORDER.filter fun l => !(decide (l ∈ classes))).length 0 := by
  rw [mlProbsDict_missing classes arr hlen, List.map_append,
    List.map_snd_zip _ _ (le_of_eq hlen), List.map_map]
  congr 1
  have hcomp : (Prod.snd ∘ fun l : Topic => (l, (0:ℚ))) = fun _ => (0:ℚ) := rfl
  rw [hcomp, List.map_const']

/-- The heuristic distribution's key list is `LABEL_ORDER`, in order. -/
theorem heuristic_keys (subject body : String) :
    (calculate_heuristic_scores subject body).map Prod.fst = LABEL_ORDER := by
  unfold calculate_heuristic_scores
  by_cases h : totalScore subject body = 0
  · rw [if_pos h]
    rfl
  · rw [if_neg h]
    rfl

theorem totalScore_expand (subject body : String) :
    totalScore subject body =
      clampedScore subject body Topic.billing + clampedScore subject body Topic.technical +
      clampedScore subject body Topic.usage + clampedScore subject body Topic.account +
      clampedScore subject body Topic.feedback := by
  simp [totalScore, LABEL_ORDER]
  ring

theorem clampedScore_nonneg (subject body : String) (t : Topic) :
    0 ≤ clampedScore subject body t :=
  le_max_left 0 _

/-- The heuristic distribution's values are in `[0,1]` and sum to 1. -/
theorem heuristic_values (subject body : String) :
    (∀ p ∈ calculate_heuristic_scores subject body, 0 ≤ p.2 ∧ p.2 ≤ 1) ∧
    ((calculate_heuristic_scores subject body).map Prod.snd).sum = 1 := by
  have h0 := clampedScore_nonneg subject body
  unfold calculate_heuristic_scores
  by_cases h : totalScore subject body = 0
  · rw [if_pos h]
    constructor
    · intro p hp
      obtain ⟨t, _, ht⟩ := List.mem_map.1 hp
      rw [← ht]
      norm_num
    · simp [LABEL_ORDER]
      norm_num
  · rw [if_neg h]
    have hT : 0 < totalScore subject body := by
      rcases lt_or_eq_of_le (by
        rw [totalScore_expand]
        have h1 := h0 Topic.billing
        have h2 := h0 Topic.technical
        have h3 := h0 Topic.usage
        have h4 := h0 Topic.account
        have h5 := h0 Topic.feedback
        linarith : (0:ℚ) ≤ totalScore subject body) with hlt | heq
      · exact hlt
      · exact absurd heq.symm h
    constructor
    · intro p hp
      obtain ⟨t, _, ht⟩ := List.mem_map.1 hp
      rw [← ht]
      refine ⟨div_nonneg (h0 t) (le_of_lt hT), ?_⟩
      rw [div_le_one hT, totalScore_expand]
      have h1 := h0 Topic.billing
      have h2 := h0 Topic.technical
      have h3 := h0 Topic.usage
      have h4 := h0 Topic.account
      have h5 := h0 Topic.feedback
      cases t <;> linarith
    · simp only [List.map_map, LABEL_ORDER, List.map_cons, List.map_nil,
        Function.comp, List.sum_cons, List.sum_nil, add_zero]
      have hTne : totalScore subject body ≠ 0 := h
      field_simp
      rw [totalScore_expand]
      ring

/-- Projections of `predict_probabilities`. -/
theorem predict_final_none (subject body : String) :
    (predict_probabilities none subject body).2.2 =
      calculate_heuristic_scores subject body := rfl

theorem predict_final_some (m : MLModel) (subject body : String) :
    (predict_probabilities (some m) subject body).2.2 =
      (if gateAccepts ((mlProbsDict m.classes (m.predictArr (docOf subject body))).map Prod.snd)
       then mlProbsDict m.classes (m.predictArr (docOf subject body))
       else calculate_heuristic_scores subject body) := rfl

theorem predict_fst (ml : Option MLModel) (subject body : String) :
    (predict_probabilities ml subject body).1 =
      (pyMaxKey (predict_probabilities ml subject body).2.2).getD Topic.billing := by
  cases ml <;> rfl

theorem predict_conf (ml : Option MLModel) (subject body : String) :
    (predict_probabilities ml subject body).2.1 =
      lookupD (predict_probabilities ml subject body).2.2
        (predict_probabilities ml subject body).1 := by
  cases ml <;> rfl

/-! ## Helper lemmas: empty text scores zero -/

theorem countWB_nil (kw : List Char) : countWB kw [] = 0 := rfl

theorem detect_negation_nil (kw : List Char) : detect_negation [] kw = false := rfl

theorem adjustedMatches_nil (kw : String) : adjustedMatches kw [] = 0 := by
  unfold adjustedMatches
  rw [countWB_nil, detect_negation_nil]
  simp

theorem positivePart_nil (t : Topic) (sw bw : ℚ) : positivePart t sw bw [] [] = 0 := by
  cases t <;>
    simp [positivePart, positiveRules, posRuleScore, adjustedMatches_nil,
      show countRE rexFailToLoad [] = 0 from rfl,
      show countRE rexDoesNotLoad [] = 0 from rfl,
      show countRE rexCantLoad [] = 0 from rfl,
      show countRE rexSpinner [] = 0 from rfl,
      show countRE rexTimeout [] = 0 from rfl,
      show countRE rexCrash [] = 0 from rfl,
      show countRE rexOutage [] = 0 from rfl,
      show countRE rexHttpCode [] = 0 from rfl,
      show countRE rexErrorCode [] = 0 from rfl]

theorem negativePart_nil (t : Topic) (sw bw : ℚ) : negativePart t sw bw [] [] = 0 := by
  have hc : ∀ kw : String, (countWB kw.data [] : ℚ) = 0 := by
    intro kw
    rw [countWB_nil]
    simp
  cases t <;> simp [negativePart, negativeRules, negRuleScore, hc]

theorem rawScore_empty (t : Topic) : rawScore "" "" t = 0 := by
  unfold rawScore
  simp only [show normalize_text "" = [] from rfl, positivePart_nil, negativePart_nil]
  have hov : usageOverride (combinedText [] []) 0 = 0 := by
    unfold usageOverride
    split <;> ring
  by_cases h : t = Topic.usage <;> simp [h, hov]

theorem totalScore_empty : totalScore "" "" = 0 := by
  rw [totalScore_expand]
  simp [clampedScore, rawScore_empty]

/-! ## Claim theorems -/

/-- **C4.** For every subject and body whose five clamped heuristic topic
scores sum to exactly zero — in particular whenever subject and body are
both empty or missing (missing fields reach the scorer as text matching no
rule) — the heuristic distribution is the uniform distribution assigning
0.2 to each of the five topics, returned as a normal result of the total
scoring function and not as an error. -/
theorem C4_zero_scores_uniform (subject body : String)
    (h : totalScore subject body = 0) :
    calculate_heuristic_scores subject body = LABEL_ORDER.map fun t => (t, 1 / 5) := by
  unfold calculate_heuristic_scores
  rw [if_pos h]

theorem C4_zero_scores_uniform_witness :
    totalScore "" "" = 0 ∧
    calculate_heuristic_scores "" "" = LABEL_ORDER.map fun t => (t, 1 / 5) :=
  ⟨totalScore_empty, C4_zero_scores_uniform "" "" totalScore_empty⟩

/-- **C5.** For every literal (non-regex) positive keyword rule with `n > 0`
raw matches in a text side, if the negation detector fires on that side the
effective match count becomes `-0.5 * n` rather than zero; and negation
detection is never applied to regex rules — a regex rule's contribution is
built from the raw counts alone and is never negative (for the table's
non-negative weights). -/
theorem C5_negation_halves_count :
    (∀ (kw : String) (textN : List Char),
        0 < countWB kw.data textN →
        detect_negation textN kw.data = true →
        adjustedMatches kw textN = -(1 / 2) * (countWB kw.data textN : ℚ)) ∧
    (∀ (t : Topic) (sw bw : ℚ) (subjN bodyN : List Char) (r : RE) (w : ℚ),
        0 ≤ sw → 0 ≤ bw → 0 ≤ w →
        0 ≤ posRuleScore t sw bw subjN bodyN (KwRule.rex r w)) := by
  constructor
  · intro kw textN hm hneg
    unfold adjustedMatches
    have hcond : (decide (0 < countWB kw.data textN) &&
        detect_negation textN kw.data) = true := by
      rw [Bool.and_eq_true]
      exact ⟨decide_eq_true hm, hneg⟩
    rw [if_pos hcond]
    ring
  · intro t sw bw subjN bodyN r w hsw hbw hw
    have hmult : 0 ≤ subject_multiplier t := by
      unfold subject_multiplier
      split <;> norm_num
    have h1 : 0 ≤ (countRE r subjN : ℚ) * sw * subject_multiplier t :=
      mul_nonneg (mul_nonneg (Nat.cast_nonneg _) hsw) hmult
    have h2 : 0 ≤ (countRE r bodyN : ℚ) * bw := mul_nonneg (Nat.cast_nonneg _) hbw
    exact mul_nonneg (add_nonneg h1 h2) hw

theorem C5_negation_halves_count_witness :
    (0 < countWB "bug".data "not a bug".data ∧
     detect_negation "not a bug".data "bug".data = true ∧
     adjustedMatches "bug" "not a bug".data =
       -(1 / 2) * (countWB "bug".data "not a bug".data : ℚ)) ∧
    ((0:ℚ) ≤ 3 / 10 ∧ (0:ℚ) ≤ 7 / 10 ∧ (0:ℚ) ≤ 3 ∧
     0 ≤ posRuleScore Topic.technical (3 / 10) (7 / 10) [] "the api timed out".data
           (KwRule.rex rexTimeout 3)) :=
  ⟨⟨by decide, by decide,
    C5_negation_halves_count.1 "bug" "not a bug".data (by decide) (by decide)⟩,
   by norm_num, by norm_num, by norm_num,
   C5_negation_halves_count.2 Topic.technical (3 / 10) (7 / 10) [] "the api timed out".data
     rexTimeout 3 (by norm_num) (by norm_num) (by norm_num)⟩

/-- **C10.** For every topic and every negative keyword rule, the amount
subtracted from the topic's running score is
`(subject_matches*subject_weight + body_matches*body_weight)*rule_weight*0.5`
with no 1.4 subject multiplier for any topic; by contrast, the positive
literal contribution for "Technical Issue" does carry the 7/5 factor on its
subject-side count. -/
theorem C10_negative_rules_unscaled (subject body : String) (t : Topic) :
    let subjN := normalize_text subject
    let bodyN := normalize_text body
    let sw := subject_weight_of subjN
    let bw := 1 - sw
    (clampedScore subject body t =
      max 0
        ((if t = Topic.usage
          then usageOverride (combinedText subjN bodyN) (positivePart t sw bw subjN bodyN)
          else positivePart t sw bw subjN bodyN) -
         ((negativeRules t).map fun p =>
           ((countWB p.1.data subjN : ℚ) * sw + (countWB p.1.data bodyN : ℚ) * bw) *
             p.2 * (1 / 2)).sum)) ∧
    ∀ (kw : String) (w : ℚ),
      posRuleScore Topic.technical sw bw subjN bodyN (KwRule.lit kw w) =
        (adjustedMatches kw subjN * sw * (7 / 5) + adjustedMatches kw bodyN * bw) * w := by
  intro subjN bodyN sw bw
  constructor
  · rfl
  · intro kw w
    simp [posRuleScore, subject_multiplier]

/-- **C2.** For every ticket predicted while a trained model is available,
the FinalDistribution is the statistical model's (five-key, zero-filled)
distribution exactly when `max_prob ≥ 0.55` and `margin ≥ 0.05`, where
`max_prob` is the top sorted probability and `margin` the gap to the second
(`marginOf` returns `max_prob` itself when fewer than two values exist);
in every other case — including when no trained model exists — the
FinalDistribution is the heuristic distribution. -/
theorem C2_confidence_margin_gate (subject body : String) (m : MLModel) :
    (let mlp := mlProbsDict m.classes (m.predictArr (docOf subject body))
     let vals := mlp.map Prod.snd
     (predict_probabilities (some m) subject body).2.2 =
       if CONFIDENCE_THRESHOLD ≤ maxProbOf vals ∧ FALLBACK_MARGIN ≤ marginOf vals
       then mlp
       else calculate_heuristic_scores subject body) ∧
    (predict_probabilities none subject body).2.2 =
      calculate_heuristic_scores subject body := by
  refine ⟨?_, predict_final_none subject body⟩
  intro mlp vals
  rw [predict_final_some]
  unfold gateAccepts
  by_cases h : CONFIDENCE_THRESHOLD ≤ maxProbOf vals ∧ FALLBACK_MARGIN ≤ marginOf vals
  · rw [if_pos (by rw [Bool.and_eq_true]; exact ⟨decide_eq_true h.1, decide_eq_true h.2⟩),
      if_pos h]
  · rw [if_neg ?hneg, if_neg h]
    case hneg =>
      intro hb
      rw [Bool.and_eq_true] at hb
      exact h ⟨of_decide_eq_true hb.1, of_decide_eq_true hb.2⟩

/-- **C6.** For every input, the Product Usage clamped score halves its
positive running score exactly when a generic-help cue occurs in the
combined subject+body, at least one hard Technical-Issue regex rule matches
the combined text, and no how-to cue from the fixed list occurs within 4
tokens of a generic-help occurrence; in every other case the running score
is left unchanged by this override (the negative-rule deduction and the
clamp then apply as usual). -/
theorem C6_generic_help_override (subject body : String) :
    clampedScore subject body Topic.usage =
      (let subjN := normalize_text subject
       let bodyN := normalize_text body
       let combined := combinedText subjN bodyN
       let sw := subject_weight_of subjN
       let bw := 1 - sw
       let pos := positivePart Topic.usage sw bw subjN bodyN
       max 0
        ((if has_generic_help combined = true ∧
             (∃ r ∈ hard_cue_patterns, REsearch r combined = true) ∧
             ¬ ∃ cue ∈ how_to_cues, REsearch (nearHelpRE cue) combined = true
          then pos * (1 / 2) else pos) -
         negativePart Topic.usage sw bw subjN bodyN)) := by
  show clampedScore subject body Topic.usage = _
  set subjN := normalize_text subject with hsubjN
  set bodyN := normalize_text body with hbodyN
  set combined := combinedText subjN bodyN with hcombined
  set sw := subject_weight_of subjN with hsw
  set bw := 1 - sw with hbw
  set pos := positivePart Topic.usage sw bw subjN bodyN with hpos
  have hiff : ((has_generic_help combined && has_technical_hard_cue combined &&
      !has_how_to_near_help combined) = true) ↔
      (has_generic_help combined = true ∧
       (∃ r ∈ hard_cue_patterns, REsearch r combined = true) ∧
       ¬ ∃ cue ∈ how_to_cues, REsearch (nearHelpRE cue) combined = true) := by
    simp [has_technical_hard_cue, has_how_to_near_help, Bool.and_eq_true,
      List.any_eq_true, and_assoc]
  show max 0 (rawScore subject body Topic.usage) = _
  unfold rawScore
  simp only [reduceIte, if_pos rfl]
  congr 1
  congr 1
  unfold usageOverride
  by_cases hc : (has_generic_help combined && has_technical_hard_cue combined &&
      !has_how_to_near_help combined) = true
  · rw [if_pos hc, if_pos (hiff.1 hc)]
  · rw [if_neg hc, if_neg fun hp => hc (hiff.2 hp)]

/-- With a positive gap between the two top sorted values, the maximum
occurs exactly once. -/
theorem count_max_eq_one (vals : List ℚ) (s0 s1 : ℚ) (rest : List ℚ)
    (hsd : sortDesc vals = s0 :: s1 :: rest) (hgap : s1 < s0) :
    vals.count s0 = 1 := by
  have hperm := sortDesc_perm vals
  rw [hsd] at hperm
  rw [← hperm.count_eq]
  have hsort := sortDesc_sorted vals
  rw [hsd] at hsort
  have htail : ∀ a ∈ s1 :: rest, a ≠ s0 := by
    intro a ha
    rcases List.mem_cons.1 ha with h1 | h1
    · rw [h1]; exact ne_of_lt hgap
    · have := (List.sorted_cons.1 (List.sorted_cons.1 hsort).2).1 a h1
      exact ne_of_lt (lt_of_le_of_lt this hgap)
  rw [List.count_cons]
  rw [List.count_eq_zero.2 (fun h => htail s0 h rfl)]
  simp

theorem two_mem_count (l : List (Topic × ℚ)) (a b : Topic × ℚ)
    (ha : a ∈ l) (hb : b ∈ l) (hne : a ≠ b) (hv : b.2 = a.2) :
    2 ≤ (l.map Prod.snd).count a.2 := by
  induction l with
  | nil => simp at ha
  | cons q t ih =>
    rcases List.mem_cons.1 ha with ha1 | ha1
    · have hbt : b ∈ t := by
        rcases List.mem_cons.1 hb with hb1 | hb1
        · exact absurd (ha1.trans hb1.symm) hne
        · exact hb1
      have hmem : a.2 ∈ t.map Prod.snd := by
        rw [← hv]
        exact List.mem_map.2 ⟨b, hbt, rfl⟩
      have h1 : 1 ≤ (t.map Prod.snd).count a.2 := List.count_pos_iff.2 hmem
      rw [List.map_cons, List.count_cons]
      have hq : (q.2 == a.2) = true := by rw [← ha1]; simp
      rw [hq]
      simp only [if_pos]
      omega
    · rcases List.mem_cons.1 hb with hb1 | hb1
      · have hmem : a.2 ∈ t.map Prod.snd := List.mem_map.2 ⟨a, ha1, rfl⟩
        have h1 : 1 ≤ (t.map Prod.snd).count a.2 := List.count_pos_iff.2 hmem
        rw [List.map_cons, List.count_cons]
        have hq : (q.2 == a.2) = true := by rw [← hb1, hv]; simp
        rw [hq]
        simp only [if_pos]
        omega
      · have := ih ha1 hb1
        rw [List.map_cons, List.count_cons]
        omega

/-- When the gate accepts (margin at least 0.05, hence a strict gap), the
model dict has a unique maximal entry, so Python's `max` and the
`LABEL_ORDER` arg-max agree on it. -/
theorem pyMax_argmax_of_gate (mlp : List (Topic × ℚ))
    (hnd : (mlp.map Prod.fst).Nodup)
    (hperm : List.Perm (mlp.map Prod.fst) LABEL_ORDER)
    (hgate : gateAccepts (mlp.map Prod.snd) = true) :
    argmaxByOrder LABEL_ORDER mlp = some ((pyMaxKey mlp).getD Topic.billing) := by
  have hlen : mlp.length = 5 := by
    have h1 : (mlp.map Prod.fst).length = LABEL_ORDER.length := hperm.length_eq
    simpa [LABEL_ORDER] using h1
  have hvlen : (sortDesc (mlp.map Prod.snd)).length = 5 := by
    rw [sortDesc_length, List.length_map, hlen]
  obtain ⟨s0, t0, hs0⟩ := List.exists_cons_of_ne_nil
    (show sortDesc (mlp.map Prod.snd) ≠ [] by
      intro h; rw [h] at hvlen; simp at hvlen)
  obtain ⟨s1, rest, hs1⟩ := List.exists_cons_of_ne_nil
    (show t0 ≠ [] by
      intro h; rw [h] at hs0; rw [hs0] at hvlen; simp at hvlen)
  have hsd : sortDesc (mlp.map Prod.snd) = s0 :: s1 :: rest := by rw [hs0, hs1]
  have hgate' : decide (CONFIDENCE_THRESHOLD ≤ maxProbOf (mlp.map Prod.snd)) = true ∧
      decide (FALLBACK_MARGIN ≤ marginOf (mlp.map Prod.snd)) = true := by
    have h := hgate
    unfold gateAccepts at h
    rwa [Bool.and_eq_true] at h
  have hmargin : FALLBACK_MARGIN ≤ marginOf (mlp.map Prod.snd) :=
    of_decide_eq_true hgate'.2
  have hgap : s1 < s0 := by
    have hFM : (0:ℚ) < FALLBACK_MARGIN := by norm_num [FALLBACK_MARGIN]
    have : marginOf (mlp.map Prod.snd) = s0 - s1 := by
      unfold marginOf
      rw [hsd]
    rw [this] at hmargin
    linarith
  have hhead : (sortDesc (mlp.map Prod.snd)).headD 0 = s0 := by rw [hsd]; rfl
  have hs0mem : s0 ∈ mlp.map Prod.snd := by
    have : s0 ∈ sortDesc (mlp.map Prod.snd) := by rw [hsd]; exact List.mem_cons_self _ _
    exact (sortDesc_perm _).mem_iff.1 this
  obtain ⟨e, hemem, hev⟩ := List.mem_map.1 hs0mem
  have hall : ∀ p ∈ mlp, p.2 ≤ e.2 := by
    intro p hp
    rw [hev]
    have := le_sortDesc_head (mlp.map Prod.snd) p.2 (List.mem_map.2 ⟨p, hp, rfl⟩)
    rw [hhead] at this
    exact this
  have hcount : (mlp.map Prod.snd).count s0 = 1 :=
    count_max_eq_one (mlp.map Prod.snd) s0 s1 rest hsd hgap
  have huniq : ∀ p ∈ mlp, p.1 ≠ e.1 → p.2 < e.2 := by
    intro p hp hpne
    rcases lt_or_eq_of_le (hall p hp) with h1 | h1
    · exact h1
    · exfalso
      have hpe : p ≠ e := fun h => hpne (by rw [h])
      have h2 := two_mem_count mlp p e hp hemem hpe (by rw [h1])
      rw [h1, hev, hcount] at h2
      omega
  have hkeysmem : ∀ u ∈ LABEL_ORDER, u ∈ mlp.map Prod.fst := fun u hu =>
    hperm.mem_iff.2 hu
  rw [argmaxByOrder_of_uniquemax LABEL_ORDER mlp e hemem hnd hkeysmem
        (mem_LABEL_ORDER e.1) hall huniq,
    pyMaxKey_of_uniquemax mlp e hemem hall huniq]
  rfl

/-- The heuristic distribution's Python `max` matches the `LABEL_ORDER`
arg-max (ties included, since its keys are listed in `LABEL_ORDER` order). -/
theorem argmax_matches_pyMax_heur (subject body : String) :
    argmaxByOrder LABEL_ORDER (calculate_heuristic_scores subject body) =
      some ((pyMaxKey (calculate_heuristic_scores subject body)).getD Topic.billing) := by
  have hkeys := heuristic_keys subject body
  have hnd : ((calculate_heuristic_scores subject body).map Prod.fst).Nodup := by
    rw [hkeys]; exact LABEL_ORDER_nodup
  have hne : calculate_heuristic_scores subject body ≠ [] := by
    intro h
    rw [h] at hkeys
    exact absurd hkeys (by decide)
  obtain ⟨t, hpk, ham⟩ := pyMaxKey_eq_argmax_aligned _ hne hnd
  rw [hkeys] at ham
  rw [ham, hpk]
  rfl

/-- **C3.** For every ticket, the predicted topic is the arg-max of the
FinalDistribution with ties broken by `LABEL_ORDER` position, and the
reported confidence is that topic's probability in the FinalDistribution —
both when the FinalDistribution is the heuristic one (keys listed in
`LABEL_ORDER` order, so Python's `max` realizes the tie-break) and when it
is the statistical one (where the gate's margin forces a unique arg-max). -/
theorem C3_argmax_confidence (subject body : String) (ml : Option MLModel)
    (hml : ∀ m, ml = some m →
      m.classes.Nodup ∧ (m.predictArr (docOf subject body)).length = m.classes.length) :
    argmaxByOrder LABEL_ORDER (predict_probabilities ml subject body).2.2 =
      some (predict_probabilities ml subject body).1 ∧
    (predict_probabilities ml subject body).2.1 =
      lookupD (predict_probabilities ml subject body).2.2
        (predict_probabilities ml subject body).1 := by
  refine ⟨?_, predict_conf ml subject body⟩
  rw [predict_fst ml subject body]
  cases ml with
  | none =>
    rw [predict_final_none]
    exact argmax_matches_pyMax_heur subject body
  | some m =>
    obtain ⟨hnd, hlen⟩ := hml m rfl
    rw [predict_final_some]
    by_cases hg : gateAccepts ((mlProbsDict m.classes
        (m.predictArr (docOf subject body))).map Prod.snd) = true
    · rw [if_pos hg]
      have hperm := mlProbsDict_keys_perm m.classes (m.predictArr (docOf subject body)) hnd hlen
      have hndk : ((mlProbsDict m.classes (m.predictArr (docOf subject body))).map
          Prod.fst).Nodup := hperm.nodup_iff.2 LABEL_ORDER_nodup
      exact pyMax_argmax_of_gate _ hndk hperm hg
    · rw [if_neg hg]
      exact argmax_matches_pyMax_heur subject body

theorem sortDesc_ne_nil (arr : List ℚ) (hne : arr ≠ []) : sortDesc arr ≠ [] := by
  intro h
  apply hne
  have hl := sortDesc_length arr
  rw [h] at hl
  exact List.eq_nil_of_length_eq_zero hl.symm

/-- The dict-based gate of `predict_probabilities` (computed over the
zero-filled five-key values) and the array-based fallback bookkeeping gate
of `classify_tickets` (computed over the raw probability array) reach
complementary decisions on every non-empty non-negative array. -/
theorem gate_equiv (arr : List ℚ) (k : Nat) (hne : arr ≠ []) (hpos : ∀ x ∈ arr, 0 ≤ x) :
    gateAccepts (arr ++ List.replicate k 0) = !(bookkeepingFallback arr) := by
  have hsne := sortDesc_ne_nil arr hne
  obtain ⟨h0, t0, hh⟩ := List.exists_cons_of_ne_nil hsne
  have hsaz := sortDesc_append_zeros arr k hpos
  have hhead : h0 = pyMaxQ arr := by
    have hd := sortDesc_head_eq_pyMaxQ arr hne
    rw [hh] at hd
    simpa using hd
  have hM : maxProbOf (arr ++ List.replicate k 0) = pyMaxQ arr := by
    unfold maxProbOf
    rw [hsaz, hh, List.cons_append, List.headD_cons, hhead]
  have hbook : bookkeepingFallback arr =
      (decide (pyMaxQ arr < CONFIDENCE_THRESHOLD) ||
       decide ((match sortDesc arr with
                | s0 :: s1 :: _ => s0 - s1
                | _ => pyMaxQ arr) < FALLBACK_MARGIN)) := rfl
  have hgatedef : gateAccepts (arr ++ List.replicate k 0) =
      (decide (CONFIDENCE_THRESHOLD ≤ maxProbOf (arr ++ List.replicate k 0)) &&
       decide (FALLBACK_MARGIN ≤ marginOf (arr ++ List.replicate k 0))) := rfl
  have hmarg : marginOf (arr ++ List.replicate k 0) =
      (match sortDesc arr with
       | s0 :: s1 :: _ => s0 - s1
       | _ => pyMaxQ arr) := by
    cases t0 with
    | nil =>
      rw [hh]
      cases k with
      | zero =>
        unfold marginOf
        rw [hsaz, hh]
        simp only [List.replicate, List.append_nil]
        unfold maxProbOf
        exact sortDesc_head_eq_pyMaxQ arr hne
      | succ k' =>
        unfold marginOf
        rw [hsaz, hh]
        simp only [List.replicate, List.cons_append, List.singleton_append, List.nil_append,
          hhead]
        ring
    | cons h1 t1 =>
      rw [hh]
      unfold marginOf
      rw [hsaz, hh]
      simp only [List.cons_append]
  rw [hgatedef, hbook, hM, hmarg]
  by_cases hc1 : CONFIDENCE_THRESHOLD ≤ pyMaxQ arr
  · by_cases hc2 : FALLBACK_MARGIN ≤ (match sortDesc arr with
        | s0 :: s1 :: _ => s0 - s1
        | _ => pyMaxQ arr)
    · simp [hc1, hc2, not_lt.2 hc1, not_lt.2 hc2]
    · simp [hc1, hc2, not_le.1 hc2]
  · simp [hc1, not_le.1 hc1]

/-- **C1.** For every subject and body and every ticket the pipeline
classifies, the per-ticket probability mapping attached to the output —
whether it is the heuristic distribution or the statistical model's
zero-filled distribution — has exactly the five topics of `LABEL_ORDER` as
keys (as a permutation, each exactly once), every value lies in `[0,1]`,
and the values sum to exactly 1 (floats are modelled as exact rationals,
so "within floating-point tolerance" becomes exact equality); the model's
array is assumed to satisfy the probability contract of the library
(non-negative entries summing to 1, one per encoder class). -/
theorem C1_distribution_invariant (subject body : String) (ml : Option MLModel)
    (hml : ∀ m, ml = some m →
      m.classes.Nodup ∧
      (m.predictArr (docOf subject body)).length = m.classes.length ∧
      (∀ x ∈ m.predictArr (docOf subject body), 0 ≤ x) ∧
      (m.predictArr (docOf subject body)).sum = 1) :
    List.Perm ((predict_probabilities ml subject body).2.2.map Prod.fst) LABEL_ORDER ∧
    (∀ p ∈ (predict_probabilities ml subject body).2.2, 0 ≤ p.2 ∧ p.2 ≤ 1) ∧
    ((predict_probabilities ml subject body).2.2.map Prod.snd).sum = 1 := by
  cases ml with
  | none =>
    rw [predict_final_none]
    exact ⟨by rw [heuristic_keys], (heuristic_values subject body).1,
      (heuristic_values subject body).2⟩
  | some m =>
    obtain ⟨hnd, hlen, hpos, hsum⟩ := hml m rfl
    rw [predict_final_some]
    by_cases hg : gateAccepts ((mlProbsDict m.classes
        (m.predictArr (docOf subject body))).map Prod.snd) = true
    · rw [if_pos hg]
      have hkeys := mlProbsDict_keys_perm m.classes (m.predictArr (docOf subject body)) hnd hlen
      have hvals := mlProbsDict_values m.classes (m.predictArr (docOf subject body)) hlen
      refine ⟨hkeys, ?_, ?_⟩
      · intro p hp
        have hp2 : p.2 ∈ (mlProbsDict m.classes
            (m.predictArr (docOf subject body))).map Prod.snd :=
          List.mem_map.2 ⟨p, hp, rfl⟩
        rw [hvals] at hp2
        rcases List.mem_append.1 hp2 with h1 | h1
        · refine ⟨hpos _ h1, ?_⟩
          calc p.2 ≤ (m.predictArr (docOf subject body)).sum :=
                List.single_le_sum hpos _ h1
            _ = 1 := hsum
        · rw [List.eq_of_mem_replicate h1]
          norm_num
      · rw [hvals, List.sum_append, hsum]
        simp
    · rw [if_neg hg]
      exact ⟨by rw [heuristic_keys], (heuristic_values subject body).1,
        (heuristic_values subject body).2⟩

theorem C1_distribution_invariant_witness :
    List.Perm ((predict_probabilities
        (some (MLModel.mk [Topic.account, Topic.billing, Topic.feedback, Topic.usage,
          Topic.technical] fun _ => [1, 0, 0, 0, 0])) "" "").2.2.map Prod.fst)
      LABEL_ORDER ∧
    (∀ p ∈ (predict_probabilities
        (some (MLModel.mk [Topic.account, Topic.billing, Topic.feedback, Topic.usage,
          Topic.technical] fun _ => [1, 0, 0, 0, 0])) "" "").2.2, 0 ≤ p.2 ∧ p.2 ≤ 1) ∧
    ((predict_probabilities
        (some (MLModel.mk [Topic.account, Topic.billing, Topic.feedback, Topic.usage,
          Topic.technical] fun _ => [1, 0, 0, 0, 0])) "" "").2.2.map Prod.snd).sum = 1 :=
  C1_distribution_invariant "" "" _ (fun m hm => by
    cases hm
    refine ⟨by decide, by decide, ?_, ?_⟩
    · intro x hx
      fin_cases hx <;> norm_num
    · norm_num)

theorem C3_argmax_confidence_witness :
    argmaxByOrder LABEL_ORDER (predict_probabilities
        (some (MLModel.mk [Topic.account, Topic.billing, Topic.feedback, Topic.usage,
          Topic.technical] fun _ => [1, 0, 0, 0, 0])) "" "").2.2 =
      some (predict_probabilities
        (some (MLModel.mk [Topic.account, Topic.billing, Topic.feedback, Topic.usage,
          Topic.technical] fun _ => [1, 0, 0, 0, 0])) "" "").1 ∧
    (predict_probabilities
        (some (MLModel.mk [Topic.account, Topic.billing, Topic.feedback, Topic.usage,
          Topic.technical] fun _ => [1, 0, 0, 0, 0])) "" "").2.1 =
      lookupD (predict_probabilities
        (some (MLModel.mk [Topic.account, Topic.billing, Topic.feedback, Topic.usage,
          Topic.technical] fun _ => [1, 0, 0, 0, 0])) "" "").2.2
        (predict_probabilities
        (some (MLModel.mk [Topic.account, Topic.billing, Topic.feedback, Topic.usage,
          Topic.technical] fun _ => [1, 0, 0, 0, 0])) "" "").1 :=
  C3_argmax_confidence "" "" _ (fun m hm => by
    cases hm
    exact ⟨by decide, by decide⟩)

/-- **C7.** For every batch (with a trained model present, as after
`classify_tickets`' own training step), the accumulated `fallback_count`
counts exactly the tickets on which the gate of `predict_probabilities`
selected the heuristic distribution as FinalDistribution, and the reported
fallback rate is that count over the batch size: the separately-coded
bookkeeping gate reaches the same decision as the selection gate on every
ticket. -/
theorem C7_fallback_rate (m : MLModel) (tickets : List (String × String))
    (hcne : m.classes ≠ [])
    (hlen : ∀ doc, (m.predictArr doc).length = m.classes.length)
    (hpos : ∀ doc, ∀ x ∈ m.predictArr doc, 0 ≤ x) :
    (classify_tickets m tickets).2 =
      tickets.countP (fun t => !(gateSelectsML m t.1 t.2)) ∧
    (tickets ≠ [] → fallback_rate m tickets =
      (tickets.countP (fun t => !(gateSelectsML m t.1 t.2)) : ℚ) / (tickets.length : ℚ)) := by
  have hpoint : ∀ s b : String,
      bookkeepingFallback (m.predictArr (docOf s b)) = !(gateSelectsML m s b) := by
    intro s b
    have harrne : m.predictArr (docOf s b) ≠ [] := by
      intro h
      apply hcne
      have hl := hlen (docOf s b)
      rw [h] at hl
      exact List.eq_nil_of_length_eq_zero hl.symm
    have hv := mlProbsDict_values m.classes (m.predictArr (docOf s b)) (hlen _)
    unfold gateSelectsML
    rw [hv, gate_equiv (m.predictArr (docOf s b)) _ harrne (hpos _), Bool.not_not]
  have hcount : (classify_tickets m tickets).2 =
      tickets.countP (fun t => !(gateSelectsML m t.1 t.2)) := by
    unfold classify_tickets
    exact List.countP_congr (fun t _ => by rw [hpoint t.1 t.2])
  refine ⟨hcount, ?_⟩
  intro hnil
  unfold fallback_rate
  rw [if_neg (fun h => hnil (List.eq_nil_of_length_eq_zero h)), hcount]

theorem C7_fallback_rate_witness :
    ((classify_tickets
        (MLModel.mk [Topic.account, Topic.billing, Topic.feedback, Topic.usage,
          Topic.technical] fun _ => [1, 0, 0, 0, 0]) [("s", "b")]).2 =
      ([("s", "b")] : List (String × String)).countP (fun t =>
        !(gateSelectsML (MLModel.mk [Topic.account, Topic.billing, Topic.feedback,
          Topic.usage, Topic.technical] fun _ => [1, 0, 0, 0, 0]) t.1 t.2))) ∧
    (([("s", "b")] : List (String × String)) ≠ [] →
      fallback_rate (MLModel.mk [Topic.account, Topic.billing, Topic.feedback, Topic.usage,
          Topic.technical] fun _ => [1, 0, 0, 0, 0]) [("s", "b")] =
        (([("s", "b")] : List (String × String)).countP (fun t =>
          !(gateSelectsML (MLModel.mk [Topic.account, Topic.billing, Topic.feedback,
            Topic.usage, Topic.technical] fun _ => [1, 0, 0, 0, 0]) t.1 t.2)) : ℚ) /
          (([("s", "b")] : List (String × String)).length : ℚ)) :=
  C7_fallback_rate _ _ (by decide) (fun _ => rfl)
    (fun _ x hx => by fin_cases hx <;> norm_num)

/-- **C8.** (code bug at the binary branch) The uncalibrated-fallback
pseudo-probability conversion puts `1/(1+exp(-d))` at index 0 and
`1/(1+exp(d))` at index 1 of the probability array, whose indices map to
encoder classes 0 and 1; for the decision score `d = 2`, the class favored
by the decision score is — per the scikit-learn convention modelled by
`favoredBinaryClass` — the one at index 1, yet the conversion assigns the
strictly larger pseudo-probability to index 0; the values do sum to 1, as
the claim states. -/
theorem C8_binary_orientation_bug :
    favoredBinaryClass 2 = 1 ∧
    (binary_pseudo_probs 2).getD 1 0 < (binary_pseudo_probs 2).getD 0 0 ∧
    (binary_pseudo_probs 2).getD 0 0 + (binary_pseudo_probs 2).getD 1 0 = 1 := by
  have ha : (0:ℝ) < Real.exp 2 := Real.exp_pos 2
  have hb : (0:ℝ) < Real.exp (-2) := Real.exp_pos _
  refine ⟨?_, ?_, ?_⟩
  · unfold favoredBinaryClass
    norm_num
  · simp only [binary_pseudo_probs, List.getD_cons_succ, List.getD_cons_zero]
    apply one_div_lt_one_div_of_lt
    · positivity
    · have : Real.exp (-2) < Real.exp 2 := Real.exp_lt_exp.2 (by norm_num)
      linarith
  · simp only [binary_pseudo_probs, List.getD_cons_succ, List.getD_cons_zero]
    rw [Real.exp_neg]
    have h1 : (1:ℝ) + (Real.exp 2)⁻¹ ≠ 0 := by positivity
    have h2 : (1:ℝ) + Real.exp 2 ≠ 0 := by positivity
    have h3 : Real.exp 2 ≠ 0 := ne_of_gt ha
    field_simp
    ring
